import Mathlib

/-!
Verification development for the vault-copy synchronization engine.

The Go sources are shallowly embedded over `List Char` paths:

* `splitOnSlash`, `joinSlash`, `trimPrefix`, `trimSuffix`, `buildPath`
  model the `strings` package operations used by the code
  (`strings.Split(s, "/")`, `strings.Join(l, "/")`, `strings.TrimPrefix`,
  `strings.TrimSuffix`, and the repository's own `buildPath`).
* The source Vault store is modelled as a finite tree `VTree`; a node can
  simultaneously hold a value (leaf) and children (directory), matching
  the store semantics the code relies on.  `IsDirectory`, `ListSecrets`
  and `ReadSecret` embed the client operations of
  `internal/vault` (reader), with the remote KV API abstracted to
  tree lookup: listing a path returns its children names (directories
  answer a non-empty listing, everything else answers "not a directory"),
  and reading a path returns its stored value when present.
* The destination Vault store is modelled as an association list from
  paths to data together with fault-injection sets for existence-check
  and write failures (mirroring the repository's own mock client, which
  injects CheckErrors/WriteErrors per path).
* The concurrent producer/worker pipeline of `internal/sync/manager`
  is sequentialized: the tree walk is laid out as the list of events the
  producer goroutine consumes (secret emissions and error emissions) in
  depth-first order, the producer folds over the events exactly as the
  `select` loop does (count a read and enqueue, or forward the first
  error and stop), and the workers process the queued items one by one
  with the body of `writeWorker`; the drain loop's error counting is
  applied at the point the error message is produced.  Counter totals
  are schedule-independent because every counter is touched exactly once
  per item by exactly one worker.
-/

/-- Paths (and all Go strings of the embedding) are lists of characters. -/
abbrev GoStr := List Char

/-- Convert a string literal to the `List Char` representation. -/
def s2p (s : String) : GoStr := s.data

/-- Secret payload: the string-keyed data mapping of a secret. -/
abbrev SData := List (GoStr × GoStr)

/-- A secret read from the source store (`vault.Secret`): path, data and
optional metadata. -/
structure Secret where
  path : GoStr
  data : SData
  metadata : Option SData
deriving DecidableEq, Repr

/-- Model of `strings.Split(s, "/")`. Never returns the empty list. -/
def splitOnSlash : GoStr → List GoStr
  | [] => [[]]
  | c :: cs =>
    if c = '/' then [] :: splitOnSlash cs
    else
      match splitOnSlash cs with
      | [] => [[c]]
      | p :: ps => (c :: p) :: ps

/-- Model of `strings.Join(l, "/")`. -/
def joinSlash : List GoStr → GoStr
  | [] => []
  | [p] => p
  | p :: ps => p ++ '/' :: joinSlash ps

/-- Model of `strings.TrimPrefix(s, pre)`. -/
def trimPrefix (s pre : GoStr) : GoStr :=
  if pre.isPrefixOf s then s.drop pre.length else s

/-- Model of `strings.TrimSuffix(s, suf)`. -/
def trimSuffix (s suf : GoStr) : GoStr :=
  if suf.isSuffixOf s then s.take (s.length - suf.length) else s

/-- Model of `strings.Contains(s, sub)`: substring occurrence. -/
def containsSub (s sub : GoStr) : Bool := decide (sub <:+: s)

/-- Embeds `buildPath` from the vault reader: joins a base path and an item name
with exactly one separator. -/
def buildPath (base item : GoStr) : GoStr :=
  if (s2p ("/")).isSuffixOf base then base ++ item else base ++ '/' :: item

/-- Single-segment glob matching, modelling `path/filepath.Match` for the
patterns the repository uses (runs of literal characters and the tokens
`*` and `?`; character classes and escapes are not used by the code or
its tests).  A `*` matches any run of characters not containing the
separator `/`, a `?` matches a single non-separator character. -/
def globMatch : List Char → List Char → Bool
  | [], s => s.isEmpty
  | p :: ps, s =>
    if p = '*' then
      (List.range ((s.takeWhile (fun c => !(c == '/'))).length + 1)).any
        (fun i => globMatch ps (s.drop i))
    else
      match s with
      | [] => false
      | c :: cs => (if p = '?' then !(c == '/') else p == c) && globMatch ps cs

namespace Vault

/-- Model of a Vault KV namespace: each node optionally holds a secret
value (with optional metadata) and has a (possibly empty) list of named
children.  A node may be a leaf and a directory at the same time. -/
inductive VTree where
  | node (val : Option SData) (meta : Option SData) (children : List (GoStr × VTree))

/-- Look up a child by name. -/
def lookupChild (seg : GoStr) : List (GoStr × VTree) → Option VTree
  | [] => none
  | (n, t) :: rest => if n = seg then some t else lookupChild seg rest

/-- Navigate a segment list down the tree. -/
def lookupPath : List GoStr → VTree → Option VTree
  | [], t => some t
  | seg :: rest, VTree.node _ _ cs =>
    match lookupChild seg cs with
    | some t => lookupPath rest t
    | none => none

/-- The subtree stored at a `/`-delimited path. -/
def subtreeAt (t : VTree) (path : GoStr) : Option VTree :=
  lookupPath (splitOnSlash path) t

/-- Embeds `Client.IsDirectory`: a path is a directory iff listing it succeeds
with data, i.e. the node exists and has children (listing anything else
yields the store's not-found answer, which the code maps to `false`). -/
def IsDirectory (t : VTree) (path : GoStr) : Bool :=
  match subtreeAt t path with
  | some (VTree.node _ _ cs) => !cs.isEmpty
  | none => false

/-- Embeds `Client.ListSecrets`: the children names at a path (empty when the
path has no children or does not exist). -/
def ListSecrets (t : VTree) (path : GoStr) : List GoStr :=
  match subtreeAt t path with
  | some (VTree.node _ _ cs) => cs.map (fun c => c.1)
  | none => []

/-- Embeds `Client.ReadSecret`: the secret stored at a path, or `none` for the
"secret not found" error. -/
def ReadSecret (t : VTree) (path : GoStr) : Option Secret :=
  match subtreeAt t path with
  | some (VTree.node (some d) m _) => some ⟨path, d, m⟩
  | _ => none

/-- One event observed by the consumer of `GetAllSecrets`: either a
secret arriving on the secrets channel or an error arriving on the error
channel. -/
inductive WalkEvent where
  | secret (s : Secret)
  | fail
deriving DecidableEq, Repr

/-- Whether the event is an error emission. -/
def WalkEvent.isFail : WalkEvent → Bool
  | WalkEvent.fail => true
  | WalkEvent.secret _ => false

mutual
/-- Embeds `Client.walkSecrets`, sequentialized to the depth-first list of
channel events it produces: a directory node (non-empty children) is
recursed into child by child; any other node is read and emitted, a
missing value being the read error sent to the error channel. -/
def walkSecrets (path : GoStr) : VTree → List WalkEvent
  | VTree.node v m cs =>
    if cs.isEmpty then
      match v with
      | some d => [WalkEvent.secret ⟨path, d, m⟩]
      | none => [WalkEvent.fail]
    else walkSecretsList path cs

/-- Walk each child in order, concatenating the produced events. -/
def walkSecretsList (path : GoStr) : List (GoStr × VTree) → List WalkEvent
  | [] => []
  | (n, t) :: rest => walkSecrets (buildPath path n) t ++ walkSecretsList path rest
end

/-- Embeds `Client.GetAllSecrets` rooted at a path string: walk the subtree at
that path; a missing or valueless target produces the read error. -/
def walkAt (t : VTree) (rootPath : GoStr) : List WalkEvent :=
  match subtreeAt t rootPath with
  | some sub => walkSecrets rootPath sub
  | none => [WalkEvent.fail]

/-- Embeds `Client.getAllPathsUnder`: collect the paths of every secret reached
by `GetAllSecrets`; any error received on the error channel aborts the
collection with an error. -/
def getAllPathsUnder (t : VTree) (rootPath : GoStr) : Except Unit (List GoStr) :=
  let events := walkAt t rootPath
  if events.any (fun e => e.isFail) then Except.error ()
  else Except.ok (events.filterMap
    (fun e => match e with
      | WalkEvent.secret s => some s.path
      | WalkEvent.fail => none))

mutual
/-- Embeds `Client.expandPathWithRest basePath restPattern`, with the rest
pattern carried as its `/`-split segment list (the Go code re-splits the
string it is handed; `strings.Split` and `strings.Join "/"` round-trip
on the slash-free segments involved, see `splitOnSlash_joinSlash`).
Resolves the remaining pattern segments under a matched directory. -/
def expandPathWithRest (t : VTree) (basePath : GoStr) (parts : List GoStr) :
    Except Unit (List GoStr) :=
  if containsSub (joinSlash parts) (s2p ("**")) then getAllPathsUnder t basePath
  else if parts.isEmpty then Except.ok [basePath]
  else if (parts.headD []).contains '*' then expandNestedWildcard t basePath parts
  else
    let fullPath := basePath ++ '/' :: joinSlash parts
    if IsDirectory t fullPath then getAllPathsUnder t fullPath
    else Except.ok [fullPath]
  termination_by (parts.length, 2, 0)

/-- Embeds `Client.expandNestedWildcard`: resolve a pattern whose first segment
carries a glob token against the listing of `basePath`. -/
def expandNestedWildcard (t : VTree) (basePath : GoStr) (parts : List GoStr) :
    Except Unit (List GoStr) :=
  if parts.isEmpty then Except.ok [basePath]
  else nestedLoop t basePath parts (ListSecrets t basePath)
  termination_by (parts.length, 1, 0)

/-- The item loop of `expandNestedWildcard`: match every listed item
against the wildcard segment, expanding matches and concatenating the
results in listing order; an error aborts the whole expansion. -/
def nestedLoop (t : VTree) (basePath : GoStr) (parts : List GoStr) :
    List GoStr → Except Unit (List GoStr)
  | [] => Except.ok []
  | item :: rest =>
    if globMatch (parts.headD []) item then
      let fullPath := basePath ++ '/' :: item
      let sub :=
        if _h : 1 < parts.length then
          expandPathWithRest t fullPath (parts.drop 1)
        else if IsDirectory t fullPath then getAllPathsUnder t fullPath
        else Except.ok [fullPath]
      match sub with
      | Except.error e => Except.error e
      | Except.ok expanded =>
        match nestedLoop t basePath parts rest with
        | Except.error e => Except.error e
        | Except.ok more => Except.ok (expanded ++ more)
    else nestedLoop t basePath parts rest
  termination_by items => (parts.length, 0, items.length)
end

/-- The item loop of `ExpandWildcardPath`: match each listed item against
the wildcard segment; a matching directory with remaining pattern
segments recurses, a matching directory in final position expands to all
secrets under it, and a matching leaf in final position is included as a
concrete path. -/
def expandLoop (t : VTree) (parts : List GoStr) (wildcardIndex : Nat)
    (basePath wildcardPattern : GoStr) : List GoStr → Except Unit (List GoStr)
  | [] => Except.ok []
  | item :: rest =>
    if globMatch wildcardPattern item then
      let fullPath :=
        if basePath == s2p ("/") || basePath.isEmpty then item
        else basePath ++ '/' :: item
      let sub :=
        if IsDirectory t fullPath then
          if wildcardIndex < parts.length - 1 then
            expandPathWithRest t fullPath (parts.drop (wildcardIndex + 1))
          else getAllPathsUnder t fullPath
        else
          if wildcardIndex < parts.length - 1 then
            expandPathWithRest t fullPath (parts.drop (wildcardIndex + 1))
          else Except.ok [fullPath]
      match sub with
      | Except.error e => Except.error e
      | Except.ok expanded =>
        match expandLoop t parts wildcardIndex basePath wildcardPattern rest with
        | Except.error e => Except.error e
        | Except.ok more => Except.ok (expanded ++ more)
    else expandLoop t parts wildcardIndex basePath wildcardPattern rest

/-- Embeds `Client.ExpandWildcardPath`: expand a pattern with glob tokens into
the list of matching concrete paths.  A pattern without glob tokens is
returned unchanged as a single element. -/
def ExpandWildcardPath (t : VTree) (pattern : GoStr) : Except Unit (List GoStr) :=
  if !(pattern.contains '*') then Except.ok [pattern]
  else
    let parts := splitOnSlash pattern
    if parts.isEmpty then Except.ok [pattern]
    else
      match parts.findIdx? (fun part => part.contains '*') with
      | none => Except.ok [pattern]
      | some wildcardIndex =>
        let basePath0 := joinSlash (parts.take wildcardIndex)
        let basePath := if basePath0.isEmpty then s2p ("/") else basePath0
        let wildcardPattern := parts.getD wildcardIndex []
        expandLoop t parts wildcardIndex basePath wildcardPattern
          (ListSecrets t basePath)

end Vault

namespace Writer

/-- Embeds `transformPath` from `internal/vault/writer.go`: strip the engine and
versioned-namespace marker (the first two segments) from the source
path; when the destination root already contains the `/data/` marker
substring append the relative path to it, otherwise insert the marker
using the engine taken from the source path's first segment.  Source
paths with fewer than 3 segments fall back to the destination root. -/
def transformPath (sourcePath baseDestPath : GoStr) : GoStr :=
  match splitOnSlash sourcePath with
  | p0 :: p1 :: _r0 :: _rs =>
    let engineAndData := p0 ++ '/' :: p1 ++ ['/']
    let relativePath := trimPrefix sourcePath engineAndData
    if containsSub baseDestPath (s2p ("/data/")) then
      baseDestPath ++ '/' :: relativePath
    else
      p0 ++ s2p ("/data/") ++ baseDestPath ++ '/' :: relativePath
  | _ => baseDestPath

end Writer

namespace Sync

/-- Embeds `config.Config`, restricted to the fields the engine consumes. -/
structure Config where
  sourcePath : GoStr
  destinationPath : GoStr
  recursive : Bool
  dryRun : Bool
  overwrite : Bool
  parallelWorkers : Nat
deriving DecidableEq, Repr

/-- Embeds `sync.SyncStats`: the four shared counters. -/
structure SyncStats where
  secretsRead : Nat
  secretsWritten : Nat
  secretsSkipped : Nat
  errors : Nat
deriving DecidableEq, Repr

/-- The destination Vault: its stored secrets as a path-keyed association
list (a write prepends, an existence check reads the newest entry),
together with fault-injection sets naming the paths whose existence
check or write fails (the external failures the workers must tolerate,
mirroring the repository mock's CheckErrors and WriteErrors). -/
structure DestState where
  store : List (GoStr × SData)
  failChecks : List GoStr
  failWrites : List GoStr
deriving DecidableEq, Repr

/-- Embeds `SecretExists` against the destination store, `none` modelling the
error return of a failed existence check. -/
def secretExists (d : DestState) (path : GoStr) : Option Bool :=
  if d.failChecks.contains path then none
  else some (List.lookup path d.store).isSome

/-- Embeds `WriteSecret` against the destination store, `none` modelling the
error return of a failed write. -/
def writeSecret (d : DestState) (path : GoStr) (data : SData) : Option DestState :=
  if d.failWrites.contains path then none
  else some { d with store := (path, data) :: d.store }

/-- Embeds `SyncManager.transformPath` from the sync manager
(`internal/sync`, revision with plain concatenation): strip the
configured source path as a prefix, drop one leading separator, and
append the remainder to the destination root with exactly one
separator; an empty remainder yields the destination root unchanged. -/
def transformPath (cfg : Config) (sourcePath baseDestPath : GoStr) : GoStr :=
  let rel0 := trimPrefix sourcePath cfg.sourcePath
  let rel := if (s2p ("/")).isPrefixOf rel0 then rel0.drop 1 else rel0
  if rel.isEmpty then baseDestPath
  else trimSuffix baseDestPath (s2p ("/")) ++ '/' :: rel

/-- Names the return paths of `SyncManager.Sync` that abort the run with
an error instead of statistics. -/
inductive SyncErr where
  | readFail
  | existsCheckFail
  | writeFail
  | dirNotRecursive
  | expandFail
  | noMatches
deriving DecidableEq, Repr

/-- The per-secret body of `writeWorker`: transform the path, check
existence at the destination (a failed check is forwarded to the error
channel and, by the drain loop, counted as an error), apply the
skip-on-conflict policy, honor dry-run, and otherwise write (a failed
write is likewise forwarded and counted).  Exactly one counter is
incremented per secret. -/
def processSecret (cfg : Config) (acc : SyncStats × DestState) (s : Secret) :
    SyncStats × DestState :=
  let st := acc.1
  let ds := acc.2
  let destPath := transformPath cfg s.path cfg.destinationPath
  match secretExists ds destPath with
  | none => ({ st with errors := st.errors + 1 }, ds)
  | some ex =>
    if ex && !cfg.overwrite then
      ({ st with secretsSkipped := st.secretsSkipped + 1 }, ds)
    else if cfg.dryRun then
      ({ st with secretsWritten := st.secretsWritten + 1 }, ds)
    else
      match writeSecret ds destPath s.data with
      | none => ({ st with errors := st.errors + 1 }, ds)
      | some ds' => ({ st with secretsWritten := st.secretsWritten + 1 }, ds')

/-- Embeds `writeWorker`: drain the queued secrets in order.  The totals are
independent of how the real scheduler distributes items over the
`parallelWorkers` workers, because each item is processed by exactly one
worker and the counters are atomic. -/
def writeWorker (cfg : Config) (acc : SyncStats × DestState) :
    List Secret → SyncStats × DestState
  | [] => acc
  | s :: rest => writeWorker cfg (processSecret cfg acc s) rest

/-- The producer goroutine of `syncDirectory`, folded over the walk's
event list: a secret is counted as read and queued for the workers; the
first error is forwarded to the error channel and stops the producer,
dropping everything the walk would have produced after it.  Returns
(reads, queue, whether an enumeration failure stopped the producer). -/
def runProducer : List Vault.WalkEvent → Nat × List Secret × Bool
  | [] => (0, [], false)
  | Vault.WalkEvent.secret s :: rest =>
    let acc := runProducer rest
    (acc.1 + 1, s :: acc.2.1, acc.2.2)
  | Vault.WalkEvent.fail :: _ => (0, [], true)

/-- Embeds `syncDirectory`: one producer enumerating the source subtree, the
worker pool draining the queue, and the drain loop adding one error for
the producer's enumeration failure if there was one. -/
def syncDirectory (cfg : Config) (t : Vault.VTree) (d : DestState) :
    SyncStats × DestState :=
  let events := Vault.walkAt t cfg.sourcePath
  let prod := runProducer events
  let st0 : SyncStats :=
    { secretsRead := prod.1, secretsWritten := 0, secretsSkipped := 0, errors := 0 }
  let res := writeWorker cfg (st0, d) prod.2.1
  ({ res.1 with errors := res.1.errors + (if prod.2.2 then 1 else 0) }, res.2)

/-- The producer goroutine of `syncMultiplePaths`: enumerate each
expanded path in order — a directory path is walked like a directory
run, a leaf path is read directly — stopping the whole producer at the
first enumeration failure. -/
def runProducerMulti (t : Vault.VTree) : List GoStr → Nat × List Secret × Bool
  | [] => (0, [], false)
  | p :: rest =>
    if Vault.IsDirectory t p then
      let prod := runProducer (Vault.walkAt t p)
      if prod.2.2 then (prod.1, prod.2.1, true)
      else
        let acc := runProducerMulti t rest
        (prod.1 + acc.1, prod.2.1 ++ acc.2.1, acc.2.2)
    else
      match Vault.ReadSecret t p with
      | some s =>
        let acc := runProducerMulti t rest
        (acc.1 + 1, s :: acc.2.1, acc.2.2)
      | none => (0, [], true)

/-- Embeds `syncMultiplePaths`: the wildcard-mode pipeline over the expanded
path list. -/
def syncMultiplePaths (cfg : Config) (t : Vault.VTree) (d : DestState)
    (paths : List GoStr) : SyncStats × DestState :=
  let prod := runProducerMulti t paths
  let st0 : SyncStats :=
    { secretsRead := prod.1, secretsWritten := 0, secretsSkipped := 0, errors := 0 }
  let res := writeWorker cfg (st0, d) prod.2.1
  ({ res.1 with errors := res.1.errors + (if prod.2.2 then 1 else 0) }, res.2)

/-- Embeds `syncSingleSecret`: read the one source secret, check the
destination, and skip, dry-run-count or write.  A failed read, a failed
existence check, or a failed write each return an error — the last one
after incrementing the error counter on statistics that the `nil`
return then discards. -/
def syncSingleSecret (cfg : Config) (t : Vault.VTree) (d : DestState) :
    Except SyncErr SyncStats × DestState :=
  match Vault.ReadSecret t cfg.sourcePath with
  | none => (Except.error SyncErr.readFail, d)
  | some secret =>
    let destPath := transformPath cfg cfg.sourcePath cfg.destinationPath
    match secretExists d destPath with
    | none => (Except.error SyncErr.existsCheckFail, d)
    | some ex =>
      if ex && !cfg.overwrite then
        (Except.ok
          { secretsRead := 1, secretsWritten := 0, secretsSkipped := 1, errors := 0 }, d)
      else if cfg.dryRun then
        (Except.ok
          { secretsRead := 1, secretsWritten := 1, secretsSkipped := 0, errors := 0 }, d)
      else
        match writeSecret d destPath secret.data with
        | none => (Except.error SyncErr.writeFail, d)
        | some d' =>
          (Except.ok
            { secretsRead := 1, secretsWritten := 1, secretsSkipped := 0, errors := 0 }, d')

/-- Embeds `SyncManager.Sync`: dispatch on the three entry modes — wildcard
when the source path carries a glob token (zero matches aborting the
run), directory when the source is listable (requiring the recursive
flag), single secret otherwise.  The returned pair carries the
destination store alongside the result so frame properties can be
stated even for error returns. -/
def Sync (cfg : Config) (t : Vault.VTree) (d : DestState) :
    Except SyncErr SyncStats × DestState :=
  if cfg.sourcePath.contains '*' then
    match Vault.ExpandWildcardPath t cfg.sourcePath with
    | Except.error _ => (Except.error SyncErr.expandFail, d)
    | Except.ok expandedPaths =>
      if expandedPaths.isEmpty then (Except.error SyncErr.noMatches, d)
      else
        let res := syncMultiplePaths cfg t d expandedPaths
        (Except.ok res.1, res.2)
  else if Vault.IsDirectory t cfg.sourcePath then
    if !cfg.recursive then (Except.error SyncErr.dirNotRecursive, d)
    else
      let res := syncDirectory cfg t d
      (Except.ok res.1, res.2)
  else syncSingleSecret cfg t d

/-- One legal schedule of `syncDirectory` under mid-run cancellation:
the producer's `select` consumes the first `k` walk events (counting
reads, forwarding an enumeration error), then observes `ctx.Done()` and
returns without sending anything to the error channel; every worker
observes the already-raised cancellation at the top of its loop and
returns before processing an item; the coordinator closes the error
channel and the drain loop counts only what was already sent.  The
channel capacity `2*parallelWorkers` admits this schedule whenever `k`
does not exceed it. -/
def syncDirectoryCancelled (cfg : Config) (t : Vault.VTree) (d : DestState)
    (k : Nat) : SyncStats × DestState :=
  let events := (Vault.walkAt t cfg.sourcePath).take k
  let prod := runProducer events
  ({ secretsRead := prod.1, secretsWritten := 0, secretsSkipped := 0,
     errors := if prod.2.2 then 1 else 0 }, d)

end Sync

namespace SyncV0

/-- Embeds `SyncManager.transformPath` from `internal/sync/manager.go` (the
checked-in revision): strip the configured source path prefix, drop one
leading separator, then — when the destination root contains the
`/data/` marker substring — append the remainder directly, and
otherwise prepend the hard-coded `secret/data/` engine-and-marker
before the destination root. -/
def transformPath (cfg : Sync.Config) (sourcePath baseDestPath : GoStr) : GoStr :=
  let rel0 := trimPrefix sourcePath cfg.sourcePath
  let rel := if (s2p ("/")).isPrefixOf rel0 then rel0.drop 1 else rel0
  if containsSub baseDestPath (s2p ("/data/")) then
    baseDestPath ++ '/' :: rel
  else
    s2p ("secret/data/") ++ baseDestPath ++ '/' :: rel

end SyncV0

/-- Whether a secret passes the worker's conflict check against a fixed
destination state: the existence check succeeds and the destination
either lacks the secret or overwrite is enabled (the guard of the
written-counter increment in `writeWorker` under dry-run). -/
def Sync.conflictPass (cfg : Sync.Config) (d : Sync.DestState) (s : Secret) : Bool :=
  match Sync.secretExists d (Sync.transformPath cfg s.path cfg.destinationPath) with
  | none => false
  | some ex => !(ex && !cfg.overwrite)

/-- A leaf node holding data `d`. -/
def leafT (d : SData) : Vault.VTree := Vault.VTree.node (some d) none []

/-- Sample secret payload used by concrete instances. -/
def sampleData : SData := [(s2p ("k"), s2p ("v"))]

/-- An empty destination store with no injected faults. -/
def destEmpty : Sync.DestState := { store := [], failChecks := [], failWrites := [] }

/-- A destination store whose write at path `dst` fails. -/
def destFailDst : Sync.DestState :=
  { store := [], failChecks := [], failWrites := [s2p ("dst")] }

/-- Directory-mode configuration rooted at `root`. -/
def cfgRoot : Sync.Config :=
  { sourcePath := s2p ("root"), destinationPath := s2p ("dst"),
    recursive := true, dryRun := false, overwrite := false, parallelWorkers := 1 }

/-- The directory-mode configuration with dry-run enabled. -/
def cfgRootDry : Sync.Config := { cfgRoot with dryRun := true }

/-- Single-secret configuration for source path `app`. -/
def cfgApp : Sync.Config :=
  { sourcePath := s2p ("app"), destinationPath := s2p ("dst"),
    recursive := false, dryRun := false, overwrite := false, parallelWorkers := 1 }

/-- Wildcard-mode configuration whose source path carries a glob token. -/
def cfgStar : Sync.Config :=
  { sourcePath := s2p ("a/*"), destinationPath := s2p ("d"),
    recursive := true, dryRun := false, overwrite := false, parallelWorkers := 1 }

/-- Source store whose directory `root` has one child that is neither
listable nor readable, so enumerating it fails. -/
def treeEnumFail : Vault.VTree :=
  Vault.VTree.node none none
    [(s2p ("root"), Vault.VTree.node none none
      [(s2p ("bad"), Vault.VTree.node none none [])])]

/-- Source store with two readable leaves under directory `root`. -/
def treeTwo : Vault.VTree :=
  Vault.VTree.node none none
    [(s2p ("root"), Vault.VTree.node none none
      [(s2p ("a"), leafT sampleData), (s2p ("b"), leafT sampleData)])]

/-- Source store holding the single leaf `app`. -/
def treeApp : Vault.VTree :=
  Vault.VTree.node none none [(s2p ("app"), leafT sampleData)]

/-- Source store for the wildcard scenario: `root/app1` lists exactly the
leaves `postgres`, `postgresql` and `cache`. -/
def c6Tree (d1 d2 d3 : SData) : Vault.VTree :=
  Vault.VTree.node none none
    [(s2p ("root"), Vault.VTree.node none none
      [(s2p ("app1"), Vault.VTree.node none none
        [(s2p ("postgres"), leafT d1),
         (s2p ("postgresql"), leafT d2),
         (s2p ("cache"), leafT d3)])])]

/-- All-zero statistics record. -/
def stats0 : Sync.SyncStats :=
  { secretsRead := 0, secretsWritten := 0, secretsSkipped := 0, errors := 0 }

/-- A one-element worker queue for concrete instances. -/
def q0 : List Secret := [{ path := s2p ("root/a"), data := sampleData, metadata := none }]

/-! Helper lemmas about the string operations. -/

theorem splitOnSlash_ne_nil : ∀ s : GoStr, splitOnSlash s ≠ []
  | [] => by simp [splitOnSlash]
  | c :: cs => by
    by_cases h : c = '/'
    · simp [splitOnSlash, h]
    · simp only [splitOnSlash, h, if_false]
      cases hs : splitOnSlash cs <;> simp

theorem splitOnSlash_append_slash (a b : GoStr) :
    splitOnSlash (a ++ '/' :: b) = splitOnSlash a ++ splitOnSlash b := by
  induction a with
  | nil => simp [splitOnSlash]
  | cons c cs ih =>
    by_cases h : c = '/'
    · simp [splitOnSlash, h, ih]
    · cases hs : splitOnSlash cs with
      | nil => exact absurd hs (splitOnSlash_ne_nil cs)
      | cons p ps =>
        simp only [List.cons_append, splitOnSlash, h, if_false, List.append_eq, ih, hs]

theorem splitOnSlash_no_slash : ∀ s : GoStr, '/' ∉ s → splitOnSlash s = [s]
  | [], _ => rfl
  | c :: cs, h => by
    have hc : ¬ c = '/' := fun hc => h (hc ▸ List.mem_cons_self c cs)
    have ih := splitOnSlash_no_slash cs (fun hm => h (List.mem_cons_of_mem c hm))
    simp [splitOnSlash, hc, ih]

theorem joinSlash_splitOnSlash : ∀ s : GoStr, joinSlash (splitOnSlash s) = s
  | [] => rfl
  | c :: cs => by
    have ih := joinSlash_splitOnSlash cs
    by_cases h : c = '/'
    · subst h
      simp only [splitOnSlash, if_pos rfl]
      cases hs : splitOnSlash cs with
      | nil => exact absurd hs (splitOnSlash_ne_nil cs)
      | cons p ps =>
        rw [hs] at ih
        simp [joinSlash, ih]
    · simp only [splitOnSlash, h, if_false]
      cases hs : splitOnSlash cs with
      | nil => exact absurd hs (splitOnSlash_ne_nil cs)
      | cons p ps =>
        rw [hs] at ih
        cases ps with
        | nil => simp_all [joinSlash]
        | cons q qs => simp_all [joinSlash]

theorem splitOnSlash_joinSlash : ∀ l : List GoStr, (∀ x ∈ l, '/' ∉ x) → l ≠ [] →
    splitOnSlash (joinSlash l) = l
  | [], _, h => absurd rfl h
  | [x], h, _ => by
    simpa [joinSlash] using splitOnSlash_no_slash x (h x (List.mem_singleton_self x))
  | x :: y :: rest, h, _ => by
    have hx : '/' ∉ x := h x (List.mem_cons_self _ _)
    have ih := splitOnSlash_joinSlash (y :: rest)
      (fun z hz => h z (List.mem_cons_of_mem x hz)) (by simp)
    show splitOnSlash (x ++ '/' :: joinSlash (y :: rest)) = x :: y :: rest
    rw [splitOnSlash_append_slash, splitOnSlash_no_slash x hx, ih]
    rfl

theorem trimPrefix_append (a b : GoStr) : trimPrefix (a ++ b) a = b := by
  unfold trimPrefix
  rw [if_pos, List.drop_left]
  rw [ List.isPrefixOf_iff_prefix]
  exact List.prefix_append a b

theorem trimPrefix_unchanged (s a : GoStr) (h : ¬ a <+: s) : trimPrefix s a = s := by
  unfold trimPrefix
  rw [if_neg]
  rw [ List.isPrefixOf_iff_prefix]
  exact h

theorem trimPrefix_self (a : GoStr) : trimPrefix a a = [] := by
  simpa using trimPrefix_append a []

theorem mem_splitOnSlash_of_contains_data (dest : GoStr)
    (h : containsSub dest (s2p ("/data/")) = true) :
    s2p ("data") ∈ splitOnSlash dest := by
  have hinf : s2p ("/data/") <:+: dest := by
    simpa [containsSub] using h
  obtain ⟨u, v, huv⟩ := hinf
  have hdef : s2p ("/data/") = '/' :: (s2p ("data") ++ ['/']) := by rfl
  have hshape : dest = u ++ '/' :: (s2p ("data") ++ '/' :: v) := by
    rw [← huv, hdef]
    simp [List.append_assoc]
  rw [hshape, splitOnSlash_append_slash, splitOnSlash_append_slash]
  rw [splitOnSlash_no_slash (s2p ("data")) (by decide)]
  simp

theorem globMatch_no_separator :
    ∀ pat s : List Char, '/' ∉ pat → globMatch pat s = true → '/' ∉ s
  | [], s, _, hm => by
    rw [show globMatch [] s = s.isEmpty from rfl, List.isEmpty_iff] at hm
    simp [hm]
  | p :: ps, s, hp, hm => by
    have hps : '/' ∉ ps := fun hmem => hp (List.mem_cons_of_mem p hmem)
    by_cases hstar : p = '*'
    · subst hstar
      rw [show globMatch ('*' :: ps) s =
          (List.range ((s.takeWhile (fun c => !(c == '/'))).length + 1)).any
            (fun i => globMatch ps (s.drop i)) from rfl,
        List.any_eq_true] at hm
      obtain ⟨i, hi, hgm⟩ := hm
      rw [List.mem_range] at hi
      have htail : '/' ∉ s.drop i := globMatch_no_separator ps (s.drop i) hps hgm
      intro hmem
      rw [← List.take_append_drop i s] at hmem
      rcases List.mem_append.mp hmem with hmem | hmem
      · have hle : i ≤ (s.takeWhile (fun c => !(c == '/'))).length := by omega
        have heq : s.take i = (s.takeWhile (fun c => !(c == '/'))).take i := by
          have hpre : s.takeWhile (fun c => !(c == '/')) <+: s :=
            List.takeWhile_prefix _
          obtain ⟨rest, hrest⟩ := hpre
          conv_lhs => rw [← hrest]
          rw [List.take_append_of_le_length hle]
        rw [heq] at hmem
        have := List.mem_takeWhile_imp (List.mem_of_mem_take hmem)
        simp at this
      · exact htail hmem
    · cases s with
      | nil =>
        rw [show globMatch (p :: ps) [] =
            (if p = '*' then
              (List.range ((List.takeWhile (fun c => !(c == '/')) []).length + 1)).any
                (fun i => globMatch ps (List.drop i []))
             else false) from rfl, if_neg hstar] at hm
        exact absurd hm (by simp)
      | cons c cs =>
        rw [show globMatch (p :: ps) (c :: cs) =
            (if p = '*' then
              (List.range (((c :: cs).takeWhile (fun c => !(c == '/'))).length + 1)).any
                (fun i => globMatch ps ((c :: cs).drop i))
             else (if p = '?' then !(c == '/') else p == c) && globMatch ps cs) from rfl,
          if_neg hstar, Bool.and_eq_true] at hm
        obtain ⟨hhead, htail⟩ := hm
        have hcs : '/' ∉ cs := globMatch_no_separator ps cs hps htail
        intro hmem
        rcases List.mem_cons.mp hmem with hmem | hmem
        · subst hmem
          by_cases hq : p = '?'
          · rw [if_pos hq] at hhead
            simp at hhead
          · rw [if_neg hq, beq_iff_eq] at hhead
            exact hp (hhead ▸ List.mem_cons_self p ps)
        · exact hcs hmem

/-! Helper lemmas about the pipeline. -/

theorem runProducer_read_eq_len (evs : List Vault.WalkEvent) :
    (Sync.runProducer evs).1 = (Sync.runProducer evs).2.1.length := by
  induction evs with
  | nil => rfl
  | cons e rest ih =>
    cases e with
    | secret s => simp [Sync.runProducer, ih]
    | fail => rfl

theorem runProducer_read_le (evs : List Vault.WalkEvent) :
    (Sync.runProducer evs).1 ≤ evs.length := by
  induction evs with
  | nil => simp [Sync.runProducer]
  | cons e rest ih =>
    cases e with
    | secret s => simpa [Sync.runProducer] using ih
    | fail => simp [Sync.runProducer]

theorem runProducerMulti_read_eq_len (t : Vault.VTree) :
    ∀ ps : List GoStr,
      (Sync.runProducerMulti t ps).1 = (Sync.runProducerMulti t ps).2.1.length
  | [] => rfl
  | p :: rest => by
    have ih := runProducerMulti_read_eq_len t rest
    unfold Sync.runProducerMulti
    by_cases hdir : Vault.IsDirectory t p = true
    · by_cases hf : (Sync.runProducer (Vault.walkAt t p)).2.2 = true
      · simp [hdir, hf, runProducer_read_eq_len]
      · simp [hdir, hf, runProducer_read_eq_len, ih]
    · cases hr : Vault.ReadSecret t p with
      | some s => simp [hdir, hr, ih]
      | none => simp [hdir, hr]

theorem processSecret_counts (cfg : Sync.Config) (st : Sync.SyncStats)
    (d : Sync.DestState) (s : Secret) :
    (Sync.processSecret cfg (st, d) s).1.secretsWritten
      + (Sync.processSecret cfg (st, d) s).1.secretsSkipped
      + (Sync.processSecret cfg (st, d) s).1.errors
      = st.secretsWritten + st.secretsSkipped + st.errors + 1
    ∧ (Sync.processSecret cfg (st, d) s).1.secretsRead = st.secretsRead := by
  unfold Sync.processSecret
  cases h : Sync.secretExists d (Sync.transformPath cfg s.path cfg.destinationPath) with
  | none => simp [h]; omega
  | some ex =>
    by_cases h1 : (ex && !cfg.overwrite) = true
    · simp [h, h1]; omega
    · by_cases h2 : cfg.dryRun = true
      · simp [h, h1, h2]; omega
      · cases hw : Sync.writeSecret d
            (Sync.transformPath cfg s.path cfg.destinationPath) s.data with
        | none => simp [h, h1, h2, hw]; omega
        | some d' => simp [h, h1, h2, hw]; omega

theorem writeWorker_counts (cfg : Sync.Config) :
    ∀ (q : List Secret) (st : Sync.SyncStats) (d : Sync.DestState),
      (Sync.writeWorker cfg (st, d) q).1.secretsWritten
        + (Sync.writeWorker cfg (st, d) q).1.secretsSkipped
        + (Sync.writeWorker cfg (st, d) q).1.errors
        = st.secretsWritten + st.secretsSkipped + st.errors + q.length
      ∧ (Sync.writeWorker cfg (st, d) q).1.secretsRead = st.secretsRead
  | [], st, d => by simp [Sync.writeWorker]
  | s :: rest, st, d => by
    have hps := processSecret_counts cfg st d s
    rcases hpr : Sync.processSecret cfg (st, d) s with ⟨st', d'⟩
    rw [hpr] at hps
    have ih := writeWorker_counts cfg rest st' d'
    unfold Sync.writeWorker
    rw [hpr]
    dsimp only at hps ⊢
    simp only [List.length_cons]
    omega

theorem writeWorker_dryRun (cfg : Sync.Config) (hdry : cfg.dryRun = true) :
    ∀ (q : List Secret) (st : Sync.SyncStats) (d : Sync.DestState),
      (Sync.writeWorker cfg (st, d) q).2 = d ∧
      (Sync.writeWorker cfg (st, d) q).1.secretsWritten
        = st.secretsWritten + q.countP (fun s => Sync.conflictPass cfg d s)
  | [], st, d => by simp [Sync.writeWorker]
  | s :: rest, st, d => by
    unfold Sync.writeWorker Sync.processSecret
    cases h : Sync.secretExists d (Sync.transformPath cfg s.path cfg.destinationPath) with
    | none =>
      have ih := writeWorker_dryRun cfg hdry rest { st with errors := st.errors + 1 } d
      simp only [h]
      rw [List.countP_cons]
      simp [Sync.conflictPass, h, ih.1, ih.2]
    | some ex =>
      by_cases h1 : (ex && !cfg.overwrite) = true
      · have ih := writeWorker_dryRun cfg hdry rest
          { st with secretsSkipped := st.secretsSkipped + 1 } d
        simp only [h, h1]
        rw [List.countP_cons]
        simp [Sync.conflictPass, h, h1, ih.1, ih.2]
      · have ih := writeWorker_dryRun cfg hdry rest
          { st with secretsWritten := st.secretsWritten + 1 } d
        simp only [h, h1]
        rw [List.countP_cons]
        simp [Sync.conflictPass, h, h1, hdry, ih.1, ih.2]
        omega

/-! Claim theorems. -/

/-- C1 (amended): for every directory-mode or wildcard-mode run, the
final statistics satisfy written + skipped + errors = read + E, where E
is 1 exactly when the producer stopped on an enumeration failure and 0
otherwise; in particular written + skipped + errors = read whenever the
enumeration completed without failure. -/
theorem c1_stats_invariant :
    ∀ (cfg : Sync.Config) (t : Vault.VTree) (d : Sync.DestState) (paths : List GoStr),
      ((Sync.syncDirectory cfg t d).1.secretsWritten
          + (Sync.syncDirectory cfg t d).1.secretsSkipped
          + (Sync.syncDirectory cfg t d).1.errors
        = (Sync.syncDirectory cfg t d).1.secretsRead
          + (if (Sync.runProducer (Vault.walkAt t cfg.sourcePath)).2.2 then 1 else 0)) ∧
      ((Sync.syncMultiplePaths cfg t d paths).1.secretsWritten
          + (Sync.syncMultiplePaths cfg t d paths).1.secretsSkipped
          + (Sync.syncMultiplePaths cfg t d paths).1.errors
        = (Sync.syncMultiplePaths cfg t d paths).1.secretsRead
          + (if (Sync.runProducerMulti t paths).2.2 then 1 else 0)) := by
  intro cfg t d paths
  constructor
  · unfold Sync.syncDirectory
    have hw := writeWorker_counts cfg
      ((Sync.runProducer (Vault.walkAt t cfg.sourcePath)).2.1)
      { secretsRead := (Sync.runProducer (Vault.walkAt t cfg.sourcePath)).1,
        secretsWritten := 0, secretsSkipped := 0, errors := 0 } d
    have hr := runProducer_read_eq_len (Vault.walkAt t cfg.sourcePath)
    dsimp only
    obtain ⟨hw1, hw2⟩ := hw
    dsimp only at hw1 hw2
    by_cases hpe : (Sync.runProducer (Vault.walkAt t cfg.sourcePath)).2.2 = true
    · simp only [hpe, if_true]
      omega
    · simp only [Bool.not_eq_true] at hpe
      simp only [hpe, Bool.false_eq_true, if_false]
      omega
  · unfold Sync.syncMultiplePaths
    have hw := writeWorker_counts cfg
      ((Sync.runProducerMulti t paths).2.1)
      { secretsRead := (Sync.runProducerMulti t paths).1,
        secretsWritten := 0, secretsSkipped := 0, errors := 0 } d
    have hr := runProducerMulti_read_eq_len t paths
    dsimp only
    obtain ⟨hw1, hw2⟩ := hw
    dsimp only at hw1 hw2
    by_cases hpe : (Sync.runProducerMulti t paths).2.2 = true
    · simp only [hpe, if_true]
      omega
    · simp only [Bool.not_eq_true] at hpe
      simp only [hpe, Bool.false_eq_true, if_false]
      omega

/-- C1 counterexample: a completed, non-cancelled directory run over a
store whose one child cannot be enumerated ends with read = 0 and
errors = 1, so written + skipped + errors differs from read. -/
theorem c1_enum_failure_counterexample :
    (Sync.Sync cfgRoot treeEnumFail destEmpty).1
      = Except.ok { secretsRead := 0, secretsWritten := 0, secretsSkipped := 0,
                    errors := 1 } ∧
    ¬ ((0 : Nat) + 0 + 1 = 0) := by
  exact ⟨by rfl, by decide⟩

/-- C2 (amended): once the pipeline starts in directory or wildcard
mode, `Sync` returns the accumulated statistics even when per-item
failures occur; single-secret mode, by contrast, aborts with an error
return on a failed write (see the counterexample). -/
theorem c2_returns_stats :
    (∀ (cfg : Sync.Config) (t : Vault.VTree) (d : Sync.DestState),
       '*' ∉ cfg.sourcePath →
       Vault.IsDirectory t cfg.sourcePath = true →
       cfg.recursive = true →
       (Sync.Sync cfg t d).1 = Except.ok (Sync.syncDirectory cfg t d).1) ∧
    (∀ (cfg : Sync.Config) (t : Vault.VTree) (d : Sync.DestState) (ps : List GoStr),
       '*' ∈ cfg.sourcePath →
       Vault.ExpandWildcardPath t cfg.sourcePath = Except.ok ps →
       ps ≠ [] →
       (Sync.Sync cfg t d).1 = Except.ok (Sync.syncMultiplePaths cfg t d ps).1) := by
  constructor
  · intro cfg t d hstar hdir hrec
    unfold Sync.Sync
    simp [hstar, hdir, hrec]
  · intro cfg t d ps hstar hexp hne
    unfold Sync.Sync
    simp [hstar, hexp, hne]

/-- C2 witness: a concrete directory-mode run returning its statistics. -/
theorem c2_returns_stats_witness :
    ('*' ∉ cfgRoot.sourcePath) ∧
    Vault.IsDirectory treeTwo cfgRoot.sourcePath = true ∧
    cfgRoot.recursive = true ∧
    (Sync.Sync cfgRoot treeTwo destEmpty).1
      = Except.ok (Sync.syncDirectory cfgRoot treeTwo destEmpty).1 := by
  refine ⟨by decide, by rfl, rfl, ?_⟩
  exact c2_returns_stats.1 cfgRoot treeTwo destEmpty (by decide) (by rfl) rfl

/-- C2 counterexample: in single-secret mode a failed write makes `Sync`
return an error result instead of the accumulated statistics. -/
theorem c2_single_write_error_counterexample :
    (Sync.Sync cfgApp treeApp destFailDst).1 = Except.error Sync.SyncErr.writeFail := by
  rfl

/-- C3: the part_017 revision of the sync manager's `transformPath`
maps the source root onto the destination root unchanged, as the claim,
spec and the package's own TestTransformPathMethod demand; the
checked-in `manager.go` revision instead returns the root with a
trailing separator (and, for roots without the `/data/` marker, with
`secret/data/` prepended), contradicting its own test. -/
theorem c3_transform_root_to_root :
    (∀ cfg : Sync.Config,
       Sync.transformPath cfg cfg.sourcePath cfg.sourcePath = cfg.sourcePath) ∧
    SyncV0.transformPath
        { sourcePath := s2p ("secret/data/source"),
          destinationPath := s2p ("secret/data/source"),
          recursive := false, dryRun := false, overwrite := false, parallelWorkers := 1 }
        (s2p ("secret/data/source")) (s2p ("secret/data/source"))
      = s2p ("secret/data/source/") := by
  constructor
  · intro cfg
    unfold Sync.transformPath
    rw [trimPrefix_self]
    simp [s2p, List.isPrefixOf]
  · rfl

/-- C4 (amended): the vault-package `transformPath` (writer.go) inserts
the versioned-namespace marker using the engine taken from the source
path's first segment whenever the source has at least 3 segments and
the destination root does not carry a `data` segment; the sync-manager
revision in `manager.go` instead hard-codes the engine `secret` (see
the counterexample). -/
theorem c4_source_engine_insertion :
    ∀ (e p1 dest : GoStr) (restSegs : List GoStr),
      '/' ∉ e → '/' ∉ p1 → restSegs ≠ [] → (∀ x ∈ restSegs, '/' ∉ x) →
      s2p ("data") ∉ splitOnSlash dest →
      Writer.transformPath (joinSlash (e :: p1 :: restSegs)) dest
        = e ++ s2p ("/data/") ++ dest ++ '/' :: joinSlash restSegs := by
  intro e p1 dest restSegs he hp1 hne hsegs hdata
  have hd : containsSub dest (s2p ("/data/")) = false := by
    cases hcond : containsSub dest (s2p ("/data/")) with
    | false => rfl
    | true => exact absurd (mem_splitOnSlash_of_contains_data dest hcond) hdata
  have hsplit : splitOnSlash (joinSlash (e :: p1 :: restSegs)) = e :: p1 :: restSegs := by
    apply splitOnSlash_joinSlash
    · intro x hx
      rcases List.mem_cons.mp hx with rfl | hx
      · exact he
      rcases List.mem_cons.mp hx with rfl | hx
      · exact hp1
      · exact hsegs x hx
    · simp
  rcases restSegs with _ | ⟨r0, rs⟩
  · exact absurd rfl hne
  unfold Writer.transformPath
  rw [hsplit]
  dsimp only
  have hsrc : joinSlash (e :: p1 :: r0 :: rs)
      = (e ++ '/' :: p1 ++ ['/']) ++ joinSlash (r0 :: rs) := by
    have h1 : joinSlash (e :: p1 :: r0 :: rs)
        = e ++ '/' :: (p1 ++ '/' :: joinSlash (r0 :: rs)) := rfl
    rw [h1]
    simp [List.append_assoc]
  rw [hsrc, trimPrefix_append]
  simp only [hd, Bool.false_eq_true, if_false]

/-- C4 witness: a concrete insertion of the source engine `kv`. -/
theorem c4_source_engine_insertion_witness :
    ('/' ∉ s2p ("kv")) ∧ ('/' ∉ s2p ("data")) ∧ ([s2p ("x")] ≠ ([] : List GoStr)) ∧
    (∀ x ∈ [s2p ("x")], '/' ∉ x) ∧ (s2p ("data") ∉ splitOnSlash (s2p ("dest"))) ∧
    Writer.transformPath (joinSlash (s2p ("kv") :: s2p ("data") :: [s2p ("x")]))
        (s2p ("dest"))
      = s2p ("kv") ++ s2p ("/data/") ++ s2p ("dest") ++ '/' :: joinSlash [s2p ("x")] := by
  refine ⟨by decide, by decide, by decide, by decide, by decide, ?_⟩
  exact c4_source_engine_insertion (s2p ("kv")) (s2p ("data")) (s2p ("dest"))
    [s2p ("x")] (by decide) (by decide) (by decide) (by decide) (by decide)

/-- C4 counterexample: the `manager.go` revision at a 3-segment source
path `kv/apps/x` and marker-free destination root `dest` produces
`secret/data/dest/x`, a fixed engine name rather than the source's
engine `kv` as the claim requires. -/
theorem c4_fixed_engine_counterexample :
    SyncV0.transformPath
        { sourcePath := s2p ("kv/apps"), destinationPath := s2p ("dest"),
          recursive := true, dryRun := false, overwrite := false, parallelWorkers := 1 }
        (s2p ("kv/apps/x")) (s2p ("dest"))
      = s2p ("secret/data/dest/x") ∧
    (splitOnSlash (s2p ("kv/apps/x"))).length = 3 ∧
    s2p ("data") ∉ splitOnSlash (s2p ("dest")) ∧
    s2p ("secret/data/dest/x")
      ≠ s2p ("kv") ++ s2p ("/data/") ++ s2p ("dest") ++ '/' :: s2p ("x") := by
  refine ⟨by decide, by decide, by decide, by decide⟩

/-- C5: both cited path transformations are prefix-correct — the
relative suffix of the source path with respect to the source root
reappears unchanged, first segment included, as the final suffix of the
destination path (part_017 manager revision and writer.go revision). -/
theorem c5_transform_prefix_correct :
    (∀ (cfg : Sync.Config) (dest rel : GoStr), rel ≠ [] →
       Sync.transformPath cfg (cfg.sourcePath ++ '/' :: rel) dest
         = trimSuffix dest (s2p ("/")) ++ '/' :: rel) ∧
    (∀ (e p1 dest : GoStr) (restSegs : List GoStr),
       '/' ∉ e → '/' ∉ p1 → restSegs ≠ [] → (∀ x ∈ restSegs, '/' ∉ x) →
       '/' :: joinSlash restSegs <:+
         Writer.transformPath (joinSlash (e :: p1 :: restSegs)) dest) := by
  constructor
  · intro cfg dest rel hrel
    unfold Sync.transformPath
    rw [trimPrefix_append cfg.sourcePath ('/' :: rel)]
    simp [s2p, List.isPrefixOf, hrel]
  · intro e p1 dest restSegs he hp1 hne hsegs
    have hsplit : splitOnSlash (joinSlash (e :: p1 :: restSegs)) = e :: p1 :: restSegs := by
      apply splitOnSlash_joinSlash
      · intro x hx
        rcases List.mem_cons.mp hx with rfl | hx
        · exact he
        rcases List.mem_cons.mp hx with rfl | hx
        · exact hp1
        · exact hsegs x hx
      · simp
    rcases restSegs with _ | ⟨r0, rs⟩
    · exact absurd rfl hne
    unfold Writer.transformPath
    rw [hsplit]
    dsimp only
    have hsrc : joinSlash (e :: p1 :: r0 :: rs)
        = (e ++ '/' :: p1 ++ ['/']) ++ joinSlash (r0 :: rs) := by
      have h1 : joinSlash (e :: p1 :: r0 :: rs)
          = e ++ '/' :: (p1 ++ '/' :: joinSlash (r0 :: rs)) := rfl
      rw [h1]
      simp [List.append_assoc]
    rw [hsrc, trimPrefix_append]
    by_cases hd : containsSub dest (s2p ("/data/")) = true
    · simp only [hd, if_true]
      exact ⟨dest, rfl⟩
    · simp only [Bool.not_eq_true] at hd
      simp only [hd, Bool.false_eq_true, if_false]
      exact ⟨e ++ s2p ("/data/") ++ dest, by simp [List.append_assoc]⟩

/-- C5 witness: concrete prefix-correct transformations. -/
theorem c5_transform_prefix_correct_witness :
    (s2p ("x") ≠ []) ∧
    Sync.transformPath cfgRoot (cfgRoot.sourcePath ++ '/' :: s2p ("x")) (s2p ("d"))
      = trimSuffix (s2p ("d")) (s2p ("/")) ++ '/' :: s2p ("x") ∧
    '/' :: joinSlash [s2p ("x")] <:+
      Writer.transformPath (joinSlash (s2p ("kv") :: s2p ("data") :: [s2p ("x")]))
        (s2p ("dest")) := by
  refine ⟨by decide, ?_, ?_⟩
  · exact c5_transform_prefix_correct.1 cfgRoot (s2p ("d")) (s2p ("x")) (by decide)
  · exact c5_transform_prefix_correct.2 (s2p ("kv")) (s2p ("data")) (s2p ("dest"))
      [s2p ("x")] (by decide) (by decide) (by decide) (by decide)

/-- C6: wildcard expansion of `root/app1/postgre*` over a store whose
directory `root/app1` lists exactly the leaves postgres, postgresql and
cache yields exactly the two matching concrete paths, whatever data the
leaves hold; and a glob token never matches across a `/` separator. -/
theorem c6_wildcard_expansion :
    (∀ d1 d2 d3 : SData,
       Vault.ExpandWildcardPath (c6Tree d1 d2 d3) (s2p ("root/app1/postgre*"))
         = Except.ok [s2p ("root/app1/postgres"), s2p ("root/app1/postgresql")]) ∧
    (∀ pat s : List Char, '/' ∉ pat → globMatch pat s = true → '/' ∉ s) := by
  constructor
  · intro d1 d2 d3
    rfl
  · exact globMatch_no_separator

/-- C6 witness: a concrete expansion and a concrete separator-free
match. -/
theorem c6_wildcard_expansion_witness :
    Vault.ExpandWildcardPath (c6Tree sampleData sampleData sampleData)
        (s2p ("root/app1/postgre*"))
      = Except.ok [s2p ("root/app1/postgres"), s2p ("root/app1/postgresql")] ∧
    ('/' ∉ s2p ("ab*")) ∧ globMatch (s2p ("ab*")) (s2p ("abc")) = true ∧
    '/' ∉ s2p ("abc") := by
  refine ⟨c6_wildcard_expansion.1 sampleData sampleData sampleData,
    by decide, by decide, ?_⟩
  exact c6_wildcard_expansion.2 (s2p ("ab*")) (s2p ("abc")) (by decide) (by decide)

/-- C7: with dry-run enabled the destination store is left exactly as it
was by the whole run in every mode, and the worker loop increments the
written counter for precisely the secrets that pass the conflict
check. -/
theorem c7_dry_run_no_mutation :
    (∀ (cfg : Sync.Config) (t : Vault.VTree) (d : Sync.DestState),
       cfg.dryRun = true → (Sync.Sync cfg t d).2 = d) ∧
    (∀ (cfg : Sync.Config) (st : Sync.SyncStats) (d : Sync.DestState) (q : List Secret),
       cfg.dryRun = true →
       (Sync.writeWorker cfg (st, d) q).2 = d ∧
       (Sync.writeWorker cfg (st, d) q).1.secretsWritten
         = st.secretsWritten + q.countP (fun s => Sync.conflictPass cfg d s)) := by
  constructor
  · intro cfg t d hdry
    unfold Sync.Sync
    by_cases hstar : '*' ∈ cfg.sourcePath
    · have hstarB : cfg.sourcePath.contains '*' = true := by simpa using hstar
      simp only [hstarB, if_true]
      cases hexp : Vault.ExpandWildcardPath t cfg.sourcePath with
      | error e => simp [hexp]
      | ok ps =>
        by_cases hps : ps.isEmpty = true
        · simp [hexp, hps]
        · simp only [Bool.not_eq_true] at hps
          simp only [hexp, hps, Bool.false_eq_true, if_false]
          unfold Sync.syncMultiplePaths
          exact (writeWorker_dryRun cfg hdry _ _ _).1
    · have hstarB : cfg.sourcePath.contains '*' = false := by simpa using hstar
      simp only [hstarB, Bool.false_eq_true, if_false]
      by_cases hdir : Vault.IsDirectory t cfg.sourcePath = true
      · simp only [hdir, if_true]
        by_cases hrec : cfg.recursive = true
        · simp only [hrec, Bool.not_true, Bool.false_eq_true, if_false]
          unfold Sync.syncDirectory
          exact (writeWorker_dryRun cfg hdry _ _ _).1
        · simp only [Bool.not_eq_true] at hrec
          simp [hrec]
      · simp only [Bool.not_eq_true] at hdir
        simp only [hdir, Bool.false_eq_true, if_false]
        unfold Sync.syncSingleSecret
        cases hr : Vault.ReadSecret t cfg.sourcePath with
        | none => rfl
        | some secret =>
          dsimp only
          cases hx : Sync.secretExists d
              (Sync.transformPath cfg cfg.sourcePath cfg.destinationPath) with
          | none => rfl
          | some ex =>
            by_cases h1 : (ex && !cfg.overwrite) = true
            · simp [h1]
            · simp [h1, hdry]
  · intro cfg st d q hdry
    exact writeWorker_dryRun cfg hdry q st d

/-- C7 witness: a concrete dry-run leaves the destination untouched and
counts one would-be write. -/
theorem c7_dry_run_no_mutation_witness :
    cfgRootDry.dryRun = true ∧
    (Sync.Sync cfgRootDry treeTwo destEmpty).2 = destEmpty ∧
    (Sync.writeWorker cfgRootDry (stats0, destEmpty) q0).2 = destEmpty ∧
    (Sync.writeWorker cfgRootDry (stats0, destEmpty) q0).1.secretsWritten
      = stats0.secretsWritten
        + q0.countP (fun s => Sync.conflictPass cfgRootDry destEmpty s) := by
  refine ⟨rfl, c7_dry_run_no_mutation.1 cfgRootDry treeTwo destEmpty rfl, ?_, ?_⟩
  · exact (c7_dry_run_no_mutation.2 cfgRootDry stats0 destEmpty q0 rfl).1
  · exact (c7_dry_run_no_mutation.2 cfgRootDry stats0 destEmpty q0 rfl).2

/-- C8 (amended): in the modelled cancellation schedule the run
terminates with the destination untouched, nothing written or skipped,
the read counter covering only the events the producer consumed before
observing cancellation, and the error counter holding no cancellation
failure — it is nonzero only if the producer hit an enumeration failure
first. -/
theorem c8_cancelled_run_stats :
    ∀ (cfg : Sync.Config) (t : Vault.VTree) (d : Sync.DestState) (k : Nat),
      (Sync.syncDirectoryCancelled cfg t d k).2 = d ∧
      (Sync.syncDirectoryCancelled cfg t d k).1.secretsWritten = 0 ∧
      (Sync.syncDirectoryCancelled cfg t d k).1.secretsSkipped = 0 ∧
      (Sync.syncDirectoryCancelled cfg t d k).1.secretsRead ≤ k ∧
      (Sync.syncDirectoryCancelled cfg t d k).1.errors
        = (if (Sync.runProducer ((Vault.walkAt t cfg.sourcePath).take k)).2.2
           then 1 else 0) := by
  intro cfg t d k
  unfold Sync.syncDirectoryCancelled
  dsimp only
  refine ⟨rfl, rfl, rfl, ?_, rfl⟩
  calc (Sync.runProducer ((Vault.walkAt t cfg.sourcePath).take k)).1
      ≤ ((Vault.walkAt t cfg.sourcePath).take k).length := runProducer_read_le _
    _ ≤ k := by simp [List.length_take]

/-- C8 counterexample: a run cancelled after one of two secrets was read
records one read and zero errors — no cancellation failure reaches the
error counter. -/
theorem c8_no_cancellation_error_counterexample :
    (Sync.syncDirectoryCancelled cfgRoot treeTwo destEmpty 1).1
      = { secretsRead := 1, secretsWritten := 0, secretsSkipped := 0, errors := 0 } ∧
    (Vault.walkAt treeTwo (s2p ("root"))).length = 2 := by
  exact ⟨by decide, by decide⟩

/-- C9: a node whose directory check succeeds (non-empty children) is
walked purely as a directory — the walk equals the walk of its children
and is independent of any value stored at the node itself, so that
value is never read or emitted. -/
theorem c9_directory_overrides_value :
    ∀ (path : GoStr) (v m : Option SData) (cs : List (GoStr × Vault.VTree)),
      cs ≠ [] →
      Vault.walkSecrets path (Vault.VTree.node v m cs)
        = Vault.walkSecretsList path cs ∧
      Vault.walkSecrets path (Vault.VTree.node v m cs)
        = Vault.walkSecrets path (Vault.VTree.node none none cs) := by
  intro path v m cs h
  cases cs with
  | nil => exact absurd rfl h
  | cons c rest => exact ⟨rfl, rfl⟩

/-- C9 witness: a concrete dual node contributes only its child's leaf. -/
theorem c9_directory_overrides_value_witness :
    ([(s2p ("c"), leafT sampleData)] ≠ ([] : List (GoStr × Vault.VTree))) ∧
    Vault.walkSecrets (s2p ("p"))
        (Vault.VTree.node (some sampleData) none [(s2p ("c"), leafT sampleData)])
      = Vault.walkSecretsList (s2p ("p")) [(s2p ("c"), leafT sampleData)] ∧
    Vault.walkSecrets (s2p ("p"))
        (Vault.VTree.node (some sampleData) none [(s2p ("c"), leafT sampleData)])
      = Vault.walkSecrets (s2p ("p"))
          (Vault.VTree.node none none [(s2p ("c"), leafT sampleData)]) := by
  refine ⟨by simp, ?_, ?_⟩
  · exact (c9_directory_overrides_value (s2p ("p")) (some sampleData) none
      [(s2p ("c"), leafT sampleData)] (by simp)).1
  · exact (c9_directory_overrides_value (s2p ("p")) (some sampleData) none
      [(s2p ("c"), leafT sampleData)] (by simp)).2

/-- C10: in wildcard mode the worker's path transformation strips the
configured source pattern, which still carries the glob token, from a
concrete (token-free) secret path; the prefix never matches, so the
entire source path is appended verbatim under the destination root. -/
theorem c10_wildcard_path_appended_verbatim :
    ∀ (cfg : Sync.Config) (p dest : GoStr),
      '*' ∈ cfg.sourcePath → '*' ∉ p → p ≠ [] → p.head? ≠ some '/' →
      Sync.transformPath cfg p dest = trimSuffix dest (s2p ("/")) ++ '/' :: p := by
  intro cfg p dest hstar hnost hne hhead
  have hnpre : ¬ cfg.sourcePath <+: p := fun hpre => hnost (hpre.subset hstar)
  unfold Sync.transformPath
  rw [trimPrefix_unchanged p cfg.sourcePath hnpre]
  rcases p with _ | ⟨c, cs⟩
  · exact absurd rfl hne
  · have hc : ¬ c = '/' := by
      intro h
      exact hhead (by simp [h])
    simp [s2p, List.isPrefixOf, hc, Ne.symm hc]

/-- C10 witness: a concrete wildcard-mode transformation appending the
whole source path. -/
theorem c10_wildcard_path_appended_verbatim_witness :
    ('*' ∈ cfgStar.sourcePath) ∧ ('*' ∉ s2p ("a/b")) ∧ (s2p ("a/b") ≠ []) ∧
    ((s2p ("a/b")).head? ≠ some '/') ∧
    Sync.transformPath cfgStar (s2p ("a/b")) (s2p ("d"))
      = trimSuffix (s2p ("d")) (s2p ("/")) ++ '/' :: s2p ("a/b") := by
  refine ⟨by decide, by decide, by decide, by decide, ?_⟩
  exact c10_wildcard_path_appended_verbatim cfgStar (s2p ("a/b")) (s2p ("d"))
    (by decide) (by decide) (by decide) (by decide)
